import Mathlib

/-!
# Verification of the `tcgit_rust` terminal front-end

A shallow embedding of `src/main.rs` (the full-screen git TUI presenter) and,
where the spec describes workflow components absent from the source tree,
models built from the spec's own words (each marked `Modelled from the spec:`).

The presenter is a `ratatui`/`crossterm` event loop over an `App` record:
tab navigation with wraparound, a quit key, a bounded input poll, and a pure
layout function `ui`.
-/

/-- The `App` struct of `main.rs`: current tab index, tab names, status line
text and branch name. -/
structure App where
  current_tab : Nat
  tabs : List String
  status : String
  branch : String
deriving DecidableEq

/-- `App::new()`: index 0, the four named tabs, status `Ready`, branch `main`. -/
def App.new : App :=
  { current_tab := 0
    tabs := ["Status", "Changes", "History", "Settings"]
    status := "Ready"
    branch := "main" }

/-- The key codes the event loop can receive (crossterm `KeyCode`): printable
characters, Tab, BackTab (Shift+Tab), and the remaining variants collapsed
into `Enter`, `Esc` and an indexed `Other` family, since `run_app` treats all
of them by the wildcard arm. -/
inductive KeyCode where
  | Char : Char → KeyCode
  | Tab : KeyCode
  | BackTab : KeyCode
  | Enter : KeyCode
  | Esc : KeyCode
  | Other : Nat → KeyCode
deriving DecidableEq

/-- The `KeyCode::Tab` arm of `run_app`:
`app.current_tab = (app.current_tab + 1) % app.tabs.len()`. -/
def onTab (a : App) : App :=
  { a with current_tab := (a.current_tab + 1) % a.tabs.length }

/-- The `KeyCode::BackTab` arm of `run_app`:
decrement when positive, else wrap to `app.tabs.len() - 1`. -/
def onBackTab (a : App) : App :=
  { a with current_tab :=
      if a.current_tab > 0 then a.current_tab - 1 else a.tabs.length - 1 }

/-- One key event of the `run_app` loop body. `none` means the loop returned
(`KeyCode::Char('q') => return Ok(())`); `some a` is the state after the
event. The wildcard arm leaves the state untouched. -/
def step (a : App) (k : KeyCode) : Option App :=
  match k with
  | KeyCode.Char c => if c = 'q' then none else some a
  | KeyCode.Tab => some (onTab a)
  | KeyCode.BackTab => some (onBackTab a)
  | _ => some a

/-- The events `run_app` reads (crossterm `Event`); only `Event::Key` is
examined (`if let Event::Key(key) = event::read()?`). -/
inductive Event where
  | Key : KeyCode → Event
  | Mouse : Event
  | Resize : Event
deriving DecidableEq

/-- The `if let Event::Key(key)` filter of `run_app`: non-key events are
dropped on the floor. -/
def handleEvent (a : App) (e : Event) : Option App :=
  match e with
  | Event.Key k => step a k
  | _ => some a

theorem onTab_tabs (a : App) : (onTab a).tabs = a.tabs := rfl

theorem onBackTab_tabs (a : App) : (onBackTab a).tabs = a.tabs := rfl

theorem onTab_iterate_tabs (k : Nat) (a : App) :
    ((onTab^[k]) a).tabs = a.tabs := by
  induction k generalizing a with
  | zero => rfl
  | succ n ih =>
    rw [Function.iterate_succ_apply, ih, onTab_tabs]

theorem onTab_iterate_current (k : Nat) (a : App)
    (h : a.current_tab < a.tabs.length) :
    ((onTab^[k]) a).current_tab = (a.current_tab + k) % a.tabs.length := by
  induction k generalizing a with
  | zero => simpa using (Nat.mod_eq_of_lt h).symm
  | succ n ih =>
    rw [Function.iterate_succ_apply]
    have hn : 0 < a.tabs.length := Nat.lt_of_le_of_lt (Nat.zero_le _) h
    have h1 : (onTab a).current_tab < (onTab a).tabs.length := by
      show (a.current_tab + 1) % a.tabs.length < a.tabs.length
      exact Nat.mod_lt _ hn
    rw [ih (onTab a) h1, onTab_tabs]
    show ((a.current_tab + 1) % a.tabs.length + n) % a.tabs.length
        = (a.current_tab + (n + 1)) % a.tabs.length
    rw [Nat.mod_add_mod]
    congr 1
    omega

/-- C1: from any tab state whose selection is in range, `Tab` steps through
`onTab` and `BackTab` through `onBackTab`; `tab_count` forward presses return
the selection to its starting index; `BackTab` at index 0 wraps to
`tab_count - 1`; in particular the initial state returns to 0 after
`tab_count` forward presses. -/
theorem tab_cycle (a : App) (h : a.current_tab < a.tabs.length) :
    step a KeyCode.Tab = some (onTab a)
    ∧ step a KeyCode.BackTab = some (onBackTab a)
    ∧ ((onTab^[a.tabs.length]) a).current_tab = a.current_tab
    ∧ (a.current_tab = 0 → (onBackTab a).current_tab = a.tabs.length - 1)
    ∧ ((onTab^[App.new.tabs.length]) App.new).current_tab = 0 := by
  refine ⟨rfl, rfl, ?_, ?_, ?_⟩
  · rw [onTab_iterate_current _ _ h, Nat.add_mod_right]
    exact Nat.mod_eq_of_lt h
  · intro h0
    show (if a.current_tab > 0 then a.current_tab - 1 else a.tabs.length - 1)
        = a.tabs.length - 1
    simp [h0]
  · have h0 : App.new.current_tab < App.new.tabs.length := by decide
    rw [onTab_iterate_current _ _ h0, Nat.add_mod_right]
    rfl

theorem tab_cycle_w :
    step App.new KeyCode.Tab = some (onTab App.new)
    ∧ step App.new KeyCode.BackTab = some (onBackTab App.new)
    ∧ ((onTab^[App.new.tabs.length]) App.new).current_tab = App.new.current_tab
    ∧ (App.new.current_tab = 0 →
        (onBackTab App.new).current_tab = App.new.tabs.length - 1)
    ∧ ((onTab^[App.new.tabs.length]) App.new).current_tab = 0 :=
  tab_cycle App.new (by decide)

theorem step_preserves_lt (a a' : App) (k : KeyCode)
    (hinv : a.current_tab < a.tabs.length) (hs : step a k = some a') :
    a'.current_tab < a'.tabs.length := by
  have hn : 0 < a.tabs.length := Nat.lt_of_le_of_lt (Nat.zero_le _) hinv
  cases k with
  | Char c =>
    by_cases hq : c = 'q'
    · simp [step, hq] at hs
    · simp [step, hq] at hs
      simpa [← hs] using hinv
  | Tab =>
    simp only [step, Option.some.injEq] at hs
    rw [← hs]
    show (a.current_tab + 1) % a.tabs.length < a.tabs.length
    exact Nat.mod_lt _ hn
  | BackTab =>
    simp only [step, Option.some.injEq] at hs
    rw [← hs]
    show (if a.current_tab > 0 then a.current_tab - 1 else a.tabs.length - 1)
        < a.tabs.length
    by_cases hz : a.current_tab > 0 <;> simp [hz] <;> omega
  | Enter => simp [step] at hs; simpa [← hs] using hinv
  | Esc => simp [step] at hs; simpa [← hs] using hinv
  | Other n => simp [step] at hs; simpa [← hs] using hinv

theorem step_frame (a a' : App) (k : KeyCode)
    (hTab : k ≠ KeyCode.Tab) (hBack : k ≠ KeyCode.BackTab)
    (hs : step a k = some a') : a' = a := by
  cases k with
  | Char c =>
    by_cases hq : c = 'q'
    · simp [step, hq] at hs
    · simp [step, hq] at hs; exact hs.symm
  | Tab => exact absurd rfl hTab
  | BackTab => exact absurd rfl hBack
  | Enter => simp [step] at hs; exact hs.symm
  | Esc => simp [step] at hs; exact hs.symm
  | Other n => simp [step] at hs; exact hs.symm

/-- C2: the selected index is in `[0, tab_count)` initially and after every
key event the loop processes, and any event other than `Tab`/`BackTab` that
continues the loop leaves the whole state (hence the index) unchanged. -/
theorem tab_index_invariant (a a' : App) (k : KeyCode)
    (hinv : a.current_tab < a.tabs.length) :
    App.new.current_tab < App.new.tabs.length
    ∧ (step a k = some a' → a'.current_tab < a'.tabs.length)
    ∧ (k ≠ KeyCode.Tab → k ≠ KeyCode.BackTab → step a k = some a' → a' = a) :=
  ⟨by decide, step_preserves_lt a a' k hinv, step_frame a a' k⟩

theorem tab_index_invariant_w :
    App.new.current_tab < App.new.tabs.length
    ∧ (step App.new KeyCode.Tab = some (onTab App.new) →
        (onTab App.new).current_tab < (onTab App.new).tabs.length)
    ∧ (KeyCode.Tab ≠ KeyCode.Tab → KeyCode.Tab ≠ KeyCode.BackTab →
        step App.new KeyCode.Tab = some (onTab App.new) → onTab App.new = App.new) :=
  tab_index_invariant App.new (onTab App.new) KeyCode.Tab (by decide)

/-- C4: any key other than `Char q`, `Tab` and `BackTab` hits the wildcard
arm: the loop continues (`some`) with the state — all four fields — unchanged. -/
theorem other_keys_noop (a : App) (k : KeyCode)
    (hq : k ≠ KeyCode.Char 'q') (hTab : k ≠ KeyCode.Tab)
    (hBack : k ≠ KeyCode.BackTab) :
    step a k = some a := by
  cases k with
  | Char c =>
    have hc : c ≠ 'q' := fun h => hq (by rw [h])
    simp [step, hc]
  | Tab => exact absurd rfl hTab
  | BackTab => exact absurd rfl hBack
  | Enter => rfl
  | Esc => rfl
  | Other n => rfl

theorem other_keys_noop_w : step App.new KeyCode.Enter = some App.new :=
  other_keys_noop App.new KeyCode.Enter (by decide) (by decide) (by decide)

/-- `tick_rate = Duration::from_millis(250)` of `run_app`, in milliseconds. -/
def tickRateMs : Nat := 250

/-- `Duration::checked_sub`: `none` on underflow. -/
def checkedSub (a b : Nat) : Option Nat :=
  if b ≤ a then some (a - b) else none

/-- The poll timeout of `run_app`:
`tick_rate.checked_sub(last_tick.elapsed()).unwrap_or(Duration::from_secs(0))`. -/
def pollTimeout (elapsedMs : Nat) : Nat :=
  (checkedSub tickRateMs elapsedMs).getD 0

/-- C5: the computed poll timeout is the tick rate minus the elapsed time
clamped to zero, and never exceeds 250 ms. -/
theorem poll_timeout_bound (elapsedMs : Nat) :
    pollTimeout elapsedMs = tickRateMs - elapsedMs
    ∧ pollTimeout elapsedMs ≤ 250 := by
  constructor
  · unfold pollTimeout checkedSub
    by_cases h : elapsedMs ≤ tickRateMs
    · simp [h]
    · simp [h]
      omega
  · unfold pollTimeout checkedSub tickRateMs
    by_cases h : elapsedMs ≤ 250 <;> simp [h]

/-- The fixed text of the `match app.current_tab` in `ui`; the wildcard arm
is `unreachable!` (a panic), modelled as `none`. -/
def tabContent (i : Nat) : Option String :=
  match i with
  | 0 => some "Status View\n\n• Working directory clean\n• 3 files staged\n• 2 files modified"
  | 1 => some "Changes View\n\n• Modified: src/main.rs\n• Staged: README.md\n• Untracked: .gitignore"
  | 2 => some "History View\n\n• feat: Add new feature\n• fix: Bug fix\n• chore: Update dependencies"
  | 3 => some "Settings View\n\n• Editor: vim\n• Theme: dark\n• Auto-commit: enabled"
  | _ => none

/-- The ASCII apostrophe, spelled by code point. -/
def quoteChar : Char := Char.ofNat 39

/-- The footer's quit hint text of `ui`. -/
def quitHint : String :=
  "Press " ++ quoteChar.toString ++ "q" ++ quoteChar.toString ++ " to quit"

/-- The texts and lists a frame drawn by `ui` is built from: the header's two
spans, the sidebar (title `Menu`, one item per tab), the main panel's title
and content, and the footer's two spans. -/
structure FrameModel where
  headerTitle : String
  headerBranch : String
  sidebarTitle : String
  sidebarItems : List String
  mainTitle : String
  mainContent : String
  footerStatus : String
  footerHint : String
deriving DecidableEq

/-- The `ui` function as a frame description. `none` models the two panics:
the `unreachable!` wildcard of the content match, and the
`app.tabs[app.current_tab]` index for the main panel's title. -/
def ui (a : App) : Option FrameModel :=
  match tabContent a.current_tab, a.tabs[a.current_tab]? with
  | some content, some title =>
    some
      { headerTitle := "Git TUI "
        headerBranch := "[" ++ a.branch ++ "]"
        sidebarTitle := "Menu"
        sidebarItems := a.tabs
        mainTitle := title
        mainContent := content
        footerStatus := "Status: " ++ a.status
        footerHint := quitHint }
  | _, _ => none

theorem ui_content (a : App) (fm : FrameModel) (h : ui a = some fm) :
    tabContent a.current_tab = some fm.mainContent := by
  unfold ui at h
  cases hc : tabContent a.current_tab <;> rw [hc] at h
  · exact absurd h (by simp)
  · cases ht : a.tabs[a.current_tab]? <;> rw [ht] at h
    · exact absurd h (by simp)
    · simp only [Option.some.injEq] at h
      rw [← h]

/-- C6: whenever the selected index is a valid tab index (below the tab count
and below the four content arms), `ui` renders a frame whose header carries
the branch name, whose sidebar lists every named tab, whose main panel text
is the fixed content of the selected index — so any two states with the same
index render the same main text — and whose footer carries the status text
and the quit hint. -/
theorem ui_frame (a : App) (h : a.current_tab < a.tabs.length)
    (h4 : a.current_tab < 4) :
    ∃ fm, ui a = some fm
      ∧ fm.headerBranch = "[" ++ a.branch ++ "]"
      ∧ fm.sidebarItems = a.tabs
      ∧ tabContent a.current_tab = some fm.mainContent
      ∧ fm.footerStatus = "Status: " ++ a.status
      ∧ fm.footerHint = quitHint
      ∧ ∀ b fm', b.current_tab = a.current_tab → ui b = some fm' →
          fm'.mainContent = fm.mainContent := by
  have hc : ∃ c, tabContent a.current_tab = some c := by
    have : a.current_tab = 0 ∨ a.current_tab = 1 ∨ a.current_tab = 2
        ∨ a.current_tab = 3 := by omega
    rcases this with h0 | h0 | h0 | h0 <;> rw [h0] <;> exact ⟨_, rfl⟩
  obtain ⟨c, hc⟩ := hc
  have ht : a.tabs[a.current_tab]? = some a.tabs[a.current_tab] :=
    List.getElem?_eq_getElem h
  refine ⟨{ headerTitle := "Git TUI "
            headerBranch := "[" ++ a.branch ++ "]"
            sidebarTitle := "Menu"
            sidebarItems := a.tabs
            mainTitle := a.tabs[a.current_tab]
            mainContent := c
            footerStatus := "Status: " ++ a.status
            footerHint := quitHint }, ?_, rfl, rfl, ?_, rfl, rfl, ?_⟩
  · unfold ui
    rw [hc, ht]
  · exact hc
  · intro b fm' hb hui
    have := ui_content b fm' hui
    rw [hb, hc] at this
    simp only [Option.some.injEq] at this
    rw [← this]

theorem ui_frame_w :
    ∃ fm, ui App.new = some fm
      ∧ fm.headerBranch = "[" ++ App.new.branch ++ "]"
      ∧ fm.sidebarItems = App.new.tabs
      ∧ tabContent App.new.current_tab = some fm.mainContent
      ∧ fm.footerStatus = "Status: " ++ App.new.status
      ∧ fm.footerHint = quitHint
      ∧ ∀ b fm', b.current_tab = App.new.current_tab → ui b = some fm' →
          fm'.mainContent = fm.mainContent :=
  ui_frame App.new (by decide) (by decide)

/-- The states the presenter loop can be in: the initial `App::new()` and
anything one processed key event away from a reachable state. -/
inductive Reachable : App → Prop where
  | init : Reachable App.new
  | next : ∀ a k a', Reachable a → step a k = some a' → Reachable a'

theorem reachable_tabs (a : App) (h : Reachable a) :
    a.tabs = App.new.tabs := by
  induction h with
  | init => rfl
  | next b k b' _ hs ih =>
    cases k with
    | Char c =>
      by_cases hq : c = 'q'
      · simp [step, hq] at hs
      · simp [step, hq] at hs; rw [← hs]; exact ih
    | Tab =>
      simp only [step, Option.some.injEq] at hs
      rw [← hs, onTab_tabs]; exact ih
    | BackTab =>
      simp only [step, Option.some.injEq] at hs
      rw [← hs, onBackTab_tabs]; exact ih
    | Enter => simp [step] at hs; rw [← hs]; exact ih
    | Esc => simp [step] at hs; rw [← hs]; exact ih
    | Other n => simp [step] at hs; rw [← hs]; exact ih

theorem reachable_current_lt (a : App) (h : Reachable a) :
    a.current_tab < a.tabs.length := by
  induction h with
  | init => decide
  | next b k b' hb hs ih =>
    exact step_preserves_lt b b' k ih hs

/-- C10: in every state reachable from `App::new()` by the loop's key-event
updates, the selected index stays below 4, so the content match of `ui`
always hits one of the four arms and the `unreachable!` panic arm is never
taken. -/
theorem content_match_total (a : App) (h : Reachable a) :
    a.current_tab < 4 ∧ (tabContent a.current_tab).isSome = true := by
  have hlen : a.tabs.length = 4 := by rw [reachable_tabs a h]; rfl
  have hlt : a.current_tab < 4 := by
    have := reachable_current_lt a h
    omega
  refine ⟨hlt, ?_⟩
  have : a.current_tab = 0 ∨ a.current_tab = 1 ∨ a.current_tab = 2
      ∨ a.current_tab = 3 := by omega
  rcases this with h0 | h0 | h0 | h0 <;> rw [h0] <;> rfl

theorem content_match_total_w :
    App.new.current_tab < 4
    ∧ (tabContent App.new.current_tab).isSome = true :=
  content_match_total App.new Reachable.init

/-- The terminal side effects `main` can perform, in program order: raw mode
on, alternate screen entered, mouse capture on, the `run_app` loop, then the
restore sequence and the error print. -/
inductive Eff where
  | rawModeOn
  | altScreenEnter
  | mouseOn
  | loopRan
  | rawModeOff
  | altScreenLeave
  | mouseOff
  | cursorShown
  | errPrinted
deriving DecidableEq

/-- Which of the fallible terminal operations of `main` succeed: each `?` in
`main` is one field. -/
structure TermEnv where
  enableRawOk : Bool
  enterAltOk : Bool
  termNewOk : Bool
  disableRawOk : Bool
  leaveAltOk : Bool
  showCursorOk : Bool
deriving DecidableEq

/-- The `main` function of `main.rs` as a trace semantics: given which
terminal operations succeed and the result `run_app` would return, the list
of effects performed and `main`'s own result. Each `?` ends the trace early
with an error; the `run_app` result is captured in `res` (not `?`), so the
restore sequence runs before `res` is inspected and a `run_app` error is
printed, with `Ok(())` returned. -/
def mainRun (env : TermEnv) (runRes : Except String Unit) :
    List Eff × Except String Unit :=
  if env.enableRawOk = false then ([], Except.error "enable_raw_mode") else
  if env.enterAltOk = false then
    ([Eff.rawModeOn], Except.error "execute") else
  if env.termNewOk = false then
    ([Eff.rawModeOn, Eff.altScreenEnter, Eff.mouseOn],
      Except.error "terminal_new") else
  if env.disableRawOk = false then
    ([Eff.rawModeOn, Eff.altScreenEnter, Eff.mouseOn, Eff.loopRan],
      Except.error "disable_raw_mode") else
  if env.leaveAltOk = false then
    ([Eff.rawModeOn, Eff.altScreenEnter, Eff.mouseOn, Eff.loopRan,
      Eff.rawModeOff], Except.error "execute") else
  if env.showCursorOk = false then
    ([Eff.rawModeOn, Eff.altScreenEnter, Eff.mouseOn, Eff.loopRan,
      Eff.rawModeOff, Eff.altScreenLeave, Eff.mouseOff],
      Except.error "show_cursor") else
  match runRes with
  | Except.error _ =>
    ([Eff.rawModeOn, Eff.altScreenEnter, Eff.mouseOn, Eff.loopRan,
      Eff.rawModeOff, Eff.altScreenLeave, Eff.mouseOff, Eff.cursorShown,
      Eff.errPrinted], Except.ok ())
  | Except.ok _ =>
    ([Eff.rawModeOn, Eff.altScreenEnter, Eff.mouseOn, Eff.loopRan,
      Eff.rawModeOff, Eff.altScreenLeave, Eff.mouseOff, Eff.cursorShown],
      Except.ok ())

/-- C3 counterexample: two exit paths of `main` where the terminal is not
restored. If entering the alternate screen fails after raw mode was enabled,
raw mode is never disabled; if `disable_raw_mode` itself fails after a
successful loop run, the alternate screen is never left and the cursor never
shown. -/
theorem restore_gap_cex :
    (Eff.rawModeOn ∈
        (mainRun ⟨true, false, true, true, true, true⟩ (Except.ok ())).1
      ∧ Eff.rawModeOff ∉
        (mainRun ⟨true, false, true, true, true, true⟩ (Except.ok ())).1)
    ∧ (Eff.altScreenLeave ∉
        (mainRun ⟨true, true, true, false, true, true⟩ (Except.ok ())).1
      ∧ Eff.cursorShown ∉
        (mainRun ⟨true, true, true, false, true, true⟩ (Except.ok ())).1) := by
  decide

/-- C3 (amended): pressing `q` returns from the loop, and provided terminal
setup and each restore operation succeed, both loop exits — `Ok` and error —
lead to raw mode disabled, alternate screen left and cursor shown before
`main` returns, the loop error being printed rather than propagated. -/
theorem quit_and_restore (a : App) (env : TermEnv)
    (runRes : Except String Unit)
    (h : env.enableRawOk = true ∧ env.enterAltOk = true
      ∧ env.termNewOk = true ∧ env.disableRawOk = true
      ∧ env.leaveAltOk = true ∧ env.showCursorOk = true) :
    step a (KeyCode.Char 'q') = none
    ∧ Eff.rawModeOff ∈ (mainRun env runRes).1
    ∧ Eff.altScreenLeave ∈ (mainRun env runRes).1
    ∧ Eff.cursorShown ∈ (mainRun env runRes).1
    ∧ (mainRun env runRes).2 = Except.ok () := by
  obtain ⟨h1, h2, h3, h4, h5, h6⟩ := h
  refine ⟨rfl, ?_⟩
  unfold mainRun
  rw [h1, h2, h3, h4, h5, h6]
  cases runRes <;> simp

theorem quit_and_restore_w :
    step App.new (KeyCode.Char 'q') = none
    ∧ Eff.rawModeOff ∈
        (mainRun ⟨true, true, true, true, true, true⟩
          (Except.error "draw")).1
    ∧ Eff.altScreenLeave ∈
        (mainRun ⟨true, true, true, true, true, true⟩
          (Except.error "draw")).1
    ∧ Eff.cursorShown ∈
        (mainRun ⟨true, true, true, true, true, true⟩
          (Except.error "draw")).1
    ∧ (mainRun ⟨true, true, true, true, true, true⟩
        (Except.error "draw")).2 = Except.ok () :=
  quit_and_restore App.new ⟨true, true, true, true, true, true⟩
    (Except.error "draw") ⟨rfl, rfl, rfl, rfl, rfl, rfl⟩

/-- C8 counterexample: the only menu the program renders is the sidebar list
titled `Menu`, and its entries are the four tab names of `App::new()` — not
the pair `Generate Commit and Push` / `Exit`. -/
theorem menu_entries_cex :
    (ui App.new).map FrameModel.sidebarItems = some App.new.tabs
    ∧ App.new.tabs ≠ ["Generate Commit and Push", "Exit"] := by
  decide

/-- C8 (amended): the interactive surface the program presents is the
full-screen presenter; its menu — the sidebar titled `Menu` — has exactly
the four entries `Status`, `Changes`, `History`, `Settings`, and contains
neither a `Generate Commit and Push` nor an `Exit` entry. -/
theorem menu_entries :
    (ui App.new).map (fun fm => (fm.sidebarTitle, fm.sidebarItems))
      = some ("Menu", ["Status", "Changes", "History", "Settings"])
    ∧ "Generate Commit and Push" ∉ App.new.tabs
    ∧ "Exit" ∉ App.new.tabs := by
  decide

/-- Modelled from the spec: the Process Runner (§4.1) is not present in the
source tree — `src/main.rs` holds only the Screen Presenter. The observable
outcome of a finished subprocess: its exit code and captured streams. -/
structure CommandOutput where
  exitCode : Int
  stdout : String
  stderr : String
deriving DecidableEq

/-- Modelled from the spec: §4.1 and §8 — `run(command)` normalizes a
finished subprocess into a typed result: exit code 0 yields success carrying
the trimmed standard output; any nonzero exit yields failure carrying the
captured standard-error text verbatim. -/
def runCommand (out : CommandOutput) : Except String String :=
  if out.exitCode = 0 then Except.ok out.stdout.trim
  else Except.error out.stderr

/-- C7: exit code 0 maps to a success result carrying the trimmed stdout;
any nonzero exit code maps to a failure carrying the stderr text unchanged. -/
theorem run_command_result (out : CommandOutput) :
    (out.exitCode = 0 → runCommand out = Except.ok out.stdout.trim)
    ∧ (out.exitCode ≠ 0 → runCommand out = Except.error out.stderr) := by
  constructor
  · intro h
    simp [runCommand, h]
  · intro h
    simp [runCommand, h]

theorem run_command_result_w :
    runCommand ⟨0, "fix: correct null check\n", ""⟩
      = Except.ok ("fix: correct null check\n").trim
    ∧ runCommand ⟨128, "", "fatal: not a git repository\n"⟩
      = Except.error "fatal: not a git repository\n" :=
  ⟨(run_command_result ⟨0, "fix: correct null check\n", ""⟩).1 rfl,
    (run_command_result ⟨128, "", "fatal: not a git repository\n"⟩).2
      (by decide)⟩

/-- Modelled from the spec: the Workflow State Machine (§4.3) is not present
in the source tree. The git-touching commands a workflow run can issue, in
order: the status check, stage-all, the suggestion invocation, the commit
(carrying its message) and the push. -/
inductive GitCmd where
  | statusCheck : GitCmd
  | stageAll : GitCmd
  | suggest : GitCmd
  | commit : String → GitCmd
  | push : GitCmd
deriving DecidableEq

/-- Modelled from the spec: the `WorkflowStep` enumeration (§3). -/
inductive WStep where
  | Idle
  | CheckingStatus
  | Staging
  | GeneratingMessage
  | AwaitingConfirmation
  | Committing
  | Pushing
  | Done
  | Aborted
deriving DecidableEq

/-- Modelled from the spec: the outcomes of the external collaborators and
the user's answers that drive one workflow run (§4.3): whether the status
check runs and reports pending changes, whether stage-all succeeds, the
suggested message (`none` when suggestion fails for any §4.2 reason),
whether the user accepts it or supplies `manualMsg`, the final confirmation
gate, and the commit/push outcomes. -/
structure WorkflowEnv where
  statusOk : Bool
  hasChanges : Bool
  stageOk : Bool
  suggestedMsg : Option String
  acceptSuggested : Bool
  manualMsg : String
  finalConfirm : Bool
  commitOk : Bool
  pushOk : Bool
deriving DecidableEq

/-- Modelled from the spec: one run of the workflow (§4.3, §9): check status,
stage all, obtain a suggestion, take the suggested or a manually entered
message, then ask the final confirmation before committing and pushing.
Returns the terminal state and the commands issued, in order. -/
def runWorkflow (env : WorkflowEnv) : WStep × List GitCmd :=
  if env.statusOk = false then (WStep.Aborted, [GitCmd.statusCheck]) else
  if env.hasChanges = false then (WStep.Aborted, [GitCmd.statusCheck]) else
  if env.stageOk = false then
    (WStep.Aborted, [GitCmd.statusCheck, GitCmd.stageAll]) else
  match env.suggestedMsg with
  | none =>
    (WStep.Aborted, [GitCmd.statusCheck, GitCmd.stageAll, GitCmd.suggest])
  | some sm =>
    let msg := if env.acceptSuggested then sm else env.manualMsg
    if env.finalConfirm = false then
      (WStep.Aborted, [GitCmd.statusCheck, GitCmd.stageAll, GitCmd.suggest])
    else if env.commitOk = false then
      (WStep.Aborted,
        [GitCmd.statusCheck, GitCmd.stageAll, GitCmd.suggest,
          GitCmd.commit msg])
    else if env.pushOk = false then
      (WStep.Aborted,
        [GitCmd.statusCheck, GitCmd.stageAll, GitCmd.suggest,
          GitCmd.commit msg, GitCmd.push])
    else
      (WStep.Done,
        [GitCmd.statusCheck, GitCmd.stageAll, GitCmd.suggest,
          GitCmd.commit msg, GitCmd.push])

/-- Recognizer for commit commands. -/
def GitCmd.isCommit : GitCmd → Bool
  | GitCmd.commit _ => true
  | _ => false

/-- Recognizer for push commands. -/
def GitCmd.isPush : GitCmd → Bool
  | GitCmd.push => true
  | _ => false

/-- C9: when the final confirmation gate is declined, the run issues no
commit and no push command — every command it did issue is the status check,
the stage-all or the suggestion call — and the run ends `Aborted`. -/
theorem decline_no_commit (env : WorkflowEnv)
    (h : env.finalConfirm = false) :
    (runWorkflow env).2.all
        (fun c => !(GitCmd.isCommit c) && !(GitCmd.isPush c)) = true
    ∧ (runWorkflow env).1 = WStep.Aborted := by
  obtain ⟨so, hc, sg, sug, acc, man, fc, co, po⟩ := env
  simp only at h
  subst h
  cases so <;> cases hc <;> cases sg <;> cases sug <;>
    simp [runWorkflow, GitCmd.isCommit, GitCmd.isPush]

theorem decline_no_commit_w :
    (runWorkflow
        ⟨true, true, true, some "feat: add tui", true, "", false, true,
          true⟩).2.all
        (fun c => !(GitCmd.isCommit c) && !(GitCmd.isPush c)) = true
    ∧ (runWorkflow
        ⟨true, true, true, some "feat: add tui", true, "", false, true,
          true⟩).1 = WStep.Aborted :=
  decline_no_commit
    ⟨true, true, true, some "feat: add tui", true, "", false, true, true⟩
    rfl
